import Mathlib

/-!
Verification of the tabular Q-learning core in
`src/Week3/Assignment-1-Mountain-Car/mountain_car.py` (class `QAgent`).

The continuous quantities of the program (observations, rewards, table
entries, epsilon) are modelled with rational numbers; machine indices with
natural numbers.  The mutable `QAgent` object becomes an explicit record,
and every mutating method returns the updated record.
-/

namespace MountainCar

/-- One dimension of the boundary-scanning loop inside
`QAgent.get_state_index` (mountain_car.py lines 70-78):
`x = 0; l = low[i]; while state[i] > l + interval_size: x += 1; l += interval_size`.
`v` is the observation component, `w` the interval size, `l` the running
lower boundary.  For nonpositive `w` the Python loop either exits at once
or never terminates; we return `0` there and every theorem below assumes
`0 < w`. -/
def scanIndex (v w : ℚ) (l : ℚ) : ℕ :=
  if hw : 0 < w then
    if hv : l + w < v then scanIndex v w (l + w) + 1 else 0
  else 0
termination_by (⌈(v - l) / w⌉).toNat
decreasing_by
  have hw' : w ≠ 0 := ne_of_gt hw
  have h1 : (v - (l + w)) / w = (v - l) / w - 1 := by
    rw [show v - (l + w) = v - l - w by ring, sub_div, div_self hw']
  have h2 : (1 : ℚ) < (v - l) / w := (one_lt_div hw).mpr (by linarith)
  have h3 : (1 : ℤ) < ⌈(v - l) / w⌉ := Int.lt_ceil.mpr (by exact_mod_cast h2)
  rw [h1, Int.ceil_sub_one]
  omega

theorem scanIndex_of_le (v w l : ℚ) (hw : 0 < w) (h : v ≤ l + w) :
    scanIndex v w l = 0 := by
  rw [scanIndex]
  rw [dif_pos hw, dif_neg (not_lt.mpr h)]

theorem scanIndex_of_lt (v w l : ℚ) (hw : 0 < w) (h : l + w < v) :
    scanIndex v w l = scanIndex v w (l + w) + 1 := by
  conv_lhs => rw [scanIndex]
  rw [dif_pos hw, dif_pos h]

/-- The loop exits with the first `k` whose upper boundary is not exceeded:
the observation is at most `l + (k+1)*w` for the returned `k`. -/
theorem scanIndex_le_bound (v w : ℚ) (hw : 0 < w) :
    ∀ n : ℕ, ∀ l : ℚ, scanIndex v w l = n → v ≤ l + ((n : ℚ) + 1) * w := by
  intro n
  induction n with
  | zero =>
    intro l h
    by_contra hc
    push_neg at hc
    have hlt : l + w < v := by
      have : l + ((0 : ℚ) + 1) * w = l + w := by ring
      linarith [this ▸ hc]
    rw [scanIndex_of_lt v w l hw hlt] at h
    omega
  | succ n ih =>
    intro l h
    rcases lt_or_le (l + w) v with h1 | h1
    · rw [scanIndex_of_lt v w l hw h1] at h
      have h2 := ih (l + w) (by omega)
      push_cast
      push_cast at h2
      linarith
    · rw [scanIndex_of_le v w l hw h1] at h
      omega

/-- Every bucket strictly before the returned one was rejected by the loop:
its upper boundary is strictly below the observation. -/
theorem scanIndex_min (v w : ℚ) (hw : 0 < w) :
    ∀ n : ℕ, ∀ l : ℚ, scanIndex v w l = n →
      ∀ j : ℕ, j < n → l + ((j : ℚ) + 1) * w < v := by
  intro n
  induction n with
  | zero =>
    intro l _ j hj
    omega
  | succ n ih =>
    intro l h j hj
    have h1 : l + w < v := by
      by_contra hc
      rw [scanIndex_of_le v w l hw (not_lt.mp hc)] at h
      omega
    rw [scanIndex_of_lt v w l hw h1] at h
    have h2 : scanIndex v w (l + w) = n := by omega
    rcases j with _ | j
    · push_cast
      linarith
    · have h3 := ih (l + w) h2 j (by omega)
      push_cast
      push_cast at h3
      linarith

/-- If the observation is at most `l + m*w` with `1 ≤ m`, the returned
index is below `m`. -/
theorem scanIndex_lt_of_le (v w l : ℚ) (hw : 0 < w) (m : ℕ)
    (hm1 : 1 ≤ m) (hm : v ≤ l + (m : ℚ) * w) : scanIndex v w l < m := by
  by_contra hc
  push_neg at hc
  have h1 := scanIndex_min v w hw (scanIndex v w l) l rfl (m - 1) (by omega)
  have h2 : ((m - 1 : ℕ) : ℚ) + 1 = (m : ℚ) := by
    have : ((m - 1 : ℕ) : ℚ) = (m : ℚ) - 1 := by
      push_cast [Nat.cast_sub hm1]
      ring
    rw [this]; ring
  rw [h2] at h1
  linarith

/-- If the observation strictly exceeds `l + m*w`, the returned index is at
least `m`. -/
theorem scanIndex_ge_of_lt (v w l : ℚ) (hw : 0 < w) (m : ℕ)
    (hm : l + (m : ℚ) * w < v) : m ≤ scanIndex v w l := by
  by_contra hc
  push_neg at hc
  have h1 := scanIndex_le_bound v w hw (scanIndex v w l) l rfl
  have h2 : ((scanIndex v w l : ℚ) + 1) ≤ (m : ℚ) := by exact_mod_cast hc
  nlinarith

/-- The scan is monotone in the observation value. -/
theorem scanIndex_mono (w l : ℚ) (hw : 0 < w) {a b : ℚ} (hab : a ≤ b) :
    scanIndex a w l ≤ scanIndex b w l := by
  by_contra hc
  push_neg at hc
  have h1 := scanIndex_le_bound b w hw (scanIndex b w l) l rfl
  have h2 := scanIndex_min a w hw (scanIndex a w l) l rfl (scanIndex b w l) hc
  linarith

/-- An observation below the running lower boundary never enters the loop. -/
theorem scanIndex_below (v w l : ℚ) (hw : 0 < w) (h : v < l) :
    scanIndex v w l = 0 :=
  scanIndex_of_le v w l hw (by linarith)

/-- Fuel-bounded transcription of the same while loop, with the Python
accumulator `x` kept as an integer exactly as in the source: `none` means
the fuel ran out before the loop exited. -/
def scanIndexAux (v w : ℚ) : ℕ → ℤ → ℚ → Option ℤ
  | 0, _, _ => none
  | fuel + 1, x, l =>
      if l + w < v then scanIndexAux v w fuel (x + 1) (l + w) else some x

theorem scanIndexAux_eq (v w : ℚ) (hw : 0 < w) :
    ∀ n : ℕ, ∀ l : ℚ, ∀ x : ℤ, scanIndex v w l = n →
      scanIndexAux v w (n + 1) x l = some (x + n) := by
  intro n
  induction n with
  | zero =>
    intro l x h
    have hle : ¬ (l + w < v) := by
      intro hlt
      rw [scanIndex_of_lt v w l hw hlt] at h
      omega
    simp [scanIndexAux, hle]
  | succ n ih =>
    intro l x h
    have hlt : l + w < v := by
      by_contra hc
      rw [scanIndex_of_le v w l hw (not_lt.mp hc)] at h
      omega
    rw [scanIndex_of_lt v w l hw hlt] at h
    have h2 : scanIndex v w (l + w) = n := by omega
    show scanIndexAux v w (n + 1 + 1) x l = _
    rw [show scanIndexAux v w (n + 1 + 1) x l =
        scanIndexAux v w (n + 1) (x + 1) (l + w) by
      simp [scanIndexAux, hlt]]
    rw [ih (l + w) (x + 1) h2]
    congr 1
    push_cast
    ring

/-- State of a `QAgent` instance (mountain_car.py lines 26-58).  The live
gym environment, the environment name and rendering are external
collaborators and are not part of the record; the numeric hyperparameters
and the Q-table are.  The Q-table of shape `(sizes₀, sizes₁, actions)` is
modelled as a total function on index triples; the theorems track
separately that the indices the code uses stay inside the declared shape. -/
structure QAgent where
  observation_space_low : List ℚ
  observation_space_high : List ℚ
  observation_space_size : ℕ
  discrete_sizes : List ℕ
  actions : ℕ
  alpha : ℚ
  gamma : ℚ
  num_train_episodes : ℕ
  epsilon : ℚ
  num_episodes_decay : ℕ
  epsilon_decay : ℚ
  q_table : ℕ → ℕ → ℕ → ℚ
  state : List ℚ

/-- The `interval_size` computed in line 74 for dimension `i`. -/
def QAgent.interval_size (a : QAgent) (i : ℕ) : ℚ :=
  (a.observation_space_high.getD i 0 - a.observation_space_low.getD i 0) /
    ((a.discrete_sizes.getD i 0 : ℕ) : ℚ)

/-- `QAgent.get_state_index` (lines 60-79): one boundary scan per
dimension, collected into the list of per-dimension indices. -/
def QAgent.get_state_index (a : QAgent) (state : List ℚ) : List ℕ :=
  (List.range a.observation_space_size).map fun i =>
    scanIndex (state.getD i 0) (a.interval_size i)
      (a.observation_space_low.getD i 0)

theorem get_state_index_getD (a : QAgent) (state : List ℚ) (i : ℕ)
    (hi : i < a.observation_space_size) :
    (a.get_state_index state).getD i 0 =
      scanIndex (state.getD i 0) (a.interval_size i)
        (a.observation_space_low.getD i 0) := by
  unfold QAgent.get_state_index
  rw [List.getD_eq_getElem?_getD, List.getElem?_map, List.getElem?_range hi]
  rfl

/-- Discretization reads none of the table entries: replacing the table
leaves the computed indices unchanged. -/
theorem get_state_index_set_table (a : QAgent) (q2 : ℕ → ℕ → ℕ → ℚ)
    (st : List ℚ) :
    QAgent.get_state_index { a with q_table := q2 } st =
      a.get_state_index st := rfl

/-- The maximum stored value over the three actions of a cell, as computed
inline in line 93 (`max(q[i][j][0], q[i][j][1], q[i][j][2])`). -/
def maxOverActions (q : ℕ → ℕ → ℕ → ℚ) (i j : ℕ) : ℚ :=
  max (max (q i j 0) (q i j 1)) (q i j 2)

/-- `QAgent.update` (lines 81-94).  The in-place assignment to
`q_table[s0][s1][action]` becomes a functional update of the table. -/
def QAgent.update (a : QAgent) (state : List ℚ) (action : ℕ) (reward : ℚ)
    (next_state : List ℚ) (is_terminal : Bool) : QAgent :=
  let state_dis := a.get_state_index state
  if is_terminal then
    { a with q_table := fun x y z =>
        if x = state_dis.getD 0 0 ∧ y = state_dis.getD 1 0 ∧ z = action then
          a.q_table (state_dis.getD 0 0) (state_dis.getD 1 0) action *
              (1 - a.alpha) + a.alpha * reward
        else a.q_table x y z }
  else
    let next_state_dis := a.get_state_index next_state
    let max_rew := max (max
        (a.q_table (next_state_dis.getD 0 0) (next_state_dis.getD 1 0) 0)
        (a.q_table (next_state_dis.getD 0 0) (next_state_dis.getD 1 0) 1))
      (a.q_table (next_state_dis.getD 0 0) (next_state_dis.getD 1 0) 2)
    { a with q_table := fun x y z =>
        if x = state_dis.getD 0 0 ∧ y = state_dis.getD 1 0 ∧ z = action then
          a.q_table (state_dis.getD 0 0) (state_dis.getD 1 0) action *
              (1 - a.alpha) + a.alpha * (reward + a.gamma * max_rew)
        else a.q_table x y z }

/-- `QAgent.greedy_action` (lines 108-118): `u = 0; m = q[..][0];
if q[..][1] > m: m, u = q[..][1], 1; if q[..][2] > m: u = 2; return u`.
The running pair `(m, u)` is kept explicitly. -/
def QAgent.greedy_action (a : QAgent) (state : List ℚ) : ℕ :=
  let ind := a.get_state_index state
  let m := a.q_table (ind.getD 0 0) (ind.getD 1 0) 0
  let m2 := if a.q_table (ind.getD 0 0) (ind.getD 1 0) 1 > m
    then a.q_table (ind.getD 0 0) (ind.getD 1 0) 1 else m
  let u2 : ℕ := if a.q_table (ind.getD 0 0) (ind.getD 1 0) 1 > m then 1 else 0
  if a.q_table (ind.getD 0 0) (ind.getD 1 0) 2 > m2 then 2 else u2

/-- `QAgent.env_step` (lines 120-131) with the external nondeterminism
(the chosen action and the environment's step result) passed in as
arguments: the update is invoked with `terminated && !truncated`, the
current state is replaced by the next observation, and the returned flag
is `terminated || truncated`. -/
def QAgent.env_step (a : QAgent) (action : ℕ) (next_state : List ℚ)
    (reward : ℚ) (terminated truncated : Bool) : QAgent × Bool :=
  let a2 := a.update a.state action reward next_state
    (terminated && !truncated)
  ({ a2 with state := next_state }, terminated || truncated)

/-- Initial epsilon (line 47). -/
def init_epsilon : ℚ := 1

/-- Number of episodes over which epsilon decays to zero (line 48). -/
def init_num_episodes_decay : ℕ := 15000

/-- The decay step fixed at construction,
`epsilon / num_episodes_decay` (line 49). -/
def init_epsilon_decay : ℚ := init_epsilon / (init_num_episodes_decay : ℚ)

/-- The per-episode epsilon assignment in `train` (line 156):
`epsilon = max(0, epsilon - epsilon_decay)`. -/
def epsilon_update (eps decay : ℚ) : ℚ := max 0 (eps - decay)

/-- Epsilon after `n` completed episodes of `train`. -/
def epsilon_after (eps decay : ℚ) : ℕ → ℚ
  | 0 => eps
  | n + 1 => epsilon_update (epsilon_after eps decay n) decay

theorem epsilon_after_closed (eps decay : ℚ) (hd : 0 ≤ decay)
    (he : 0 ≤ eps) (n : ℕ) :
    epsilon_after eps decay n = max 0 (eps - (n : ℚ) * decay) := by
  induction n with
  | zero =>
    simp [epsilon_after, max_eq_right he]
  | succ n ih =>
    rw [epsilon_after, ih, epsilon_update]
    rcases le_or_lt (eps - (n : ℚ) * decay) 0 with h | h
    · rw [max_eq_left h]
      have h2 : eps - ((n : ℕ) + 1 : ℚ) * decay ≤ 0 := by nlinarith
      rw [max_eq_left (by linarith : (0 : ℚ) - decay ≤ 0)]
      rw [eq_comm, max_eq_left]
      push_cast
      push_cast at h2
      linarith
    · rw [max_eq_right h.le]
      congr 1
      push_cast
      ring

theorem interval_size_pos (a : QAgent) (i : ℕ)
    (hlh : a.observation_space_low.getD i 0 < a.observation_space_high.getD i 0)
    (hs : 1 ≤ a.discrete_sizes.getD i 0) : 0 < a.interval_size i := by
  apply div_pos (by linarith)
  exact_mod_cast Nat.lt_of_lt_of_le Nat.zero_lt_one hs

/-- An observation component at most the high bound lands strictly below
the bucket count of its dimension. -/
theorem get_state_index_lt (a : QAgent) (obs : List ℚ) (i : ℕ)
    (hi : i < a.observation_space_size)
    (hlh : a.observation_space_low.getD i 0 < a.observation_space_high.getD i 0)
    (hs : 1 ≤ a.discrete_sizes.getD i 0)
    (hhi : obs.getD i 0 ≤ a.observation_space_high.getD i 0) :
    (a.get_state_index obs).getD i 0 < a.discrete_sizes.getD i 0 := by
  rw [get_state_index_getD a obs i hi]
  have hw := interval_size_pos a i hlh hs
  apply scanIndex_lt_of_le _ _ _ hw _ hs
  have hm : ((a.discrete_sizes.getD i 0 : ℕ) : ℚ) ≠ 0 := by
    have : (0 : ℚ) < ((a.discrete_sizes.getD i 0 : ℕ) : ℚ) := by
      exact_mod_cast Nat.lt_of_lt_of_le Nat.zero_lt_one hs
    linarith
  have hmw : ((a.discrete_sizes.getD i 0 : ℕ) : ℚ) * a.interval_size i =
      a.observation_space_high.getD i 0 - a.observation_space_low.getD i 0 := by
    rw [QAgent.interval_size, ← mul_div_assoc]
    exact mul_div_cancel_left₀ _ hm
  rw [hmw]
  linarith

/-- For a two-dimensional agent the index list is the pair of scans. -/
theorem get_state_index_pair (a : QAgent) (h : a.observation_space_size = 2)
    (st : List ℚ) :
    a.get_state_index st =
      [scanIndex (st.getD 0 0) (a.interval_size 0)
         (a.observation_space_low.getD 0 0),
       scanIndex (st.getD 1 0) (a.interval_size 1)
         (a.observation_space_low.getD 1 0)] := by
  unfold QAgent.get_state_index
  rw [h]
  rfl

/-- For a one-dimensional agent the index list is a single scan. -/
theorem get_state_index_single (a : QAgent) (h : a.observation_space_size = 1)
    (st : List ℚ) :
    a.get_state_index st =
      [scanIndex (st.getD 0 0) (a.interval_size 0)
         (a.observation_space_low.getD 0 0)] := by
  unfold QAgent.get_state_index
  rw [h]
  rfl

/-- Builder for the concrete agent instances of the example theorems: the
hyperparameters as assigned in __init__ (alpha 0.1, gamma 0.95, epsilon 1
decaying over 15000 of 25000 episodes), with the bounds, bucket counts and
table supplied. -/
def baseAgent (low high : List ℚ) (sizes : List ℕ)
    (q : ℕ → ℕ → ℕ → ℚ) : QAgent :=
  { observation_space_low := low
    observation_space_high := high
    observation_space_size := low.length
    discrete_sizes := sizes
    actions := 3
    alpha := 1 / 10
    gamma := 19 / 20
    num_train_episodes := 25000
    epsilon := init_epsilon
    num_episodes_decay := init_num_episodes_decay
    epsilon_decay := init_epsilon_decay
    q_table := q
    state := low }

/-- Table for the C1 example: the start cell has old value 5 for action 0,
the next-state cell (first index 1) holds action values 2, 1, 0. -/
def c1Table : ℕ → ℕ → ℕ → ℚ := fun x _ z =>
  if x = 0 then (if z = 0 then 5 else 0)
  else if z = 0 then 2 else if z = 1 then 1 else 0

def c1Agent : QAgent := baseAgent [0, 0] [2, 1] [2, 1] c1Table

/-- Table for the C2 example: old value 5 at the updated entry, every
other entry 7 so that independence from neighbours is visible. -/
def c2Table : ℕ → ℕ → ℕ → ℚ := fun x y z =>
  if x = 0 ∧ y = 0 ∧ z = 0 then 5 else 7

def c2Agent : QAgent := baseAgent [0, 0] [1, 1] [1, 1] c2Table

def c3Agent : QAgent := baseAgent [0] [2] [1] (fun _ _ _ => 0)

def c4Agent : QAgent := baseAgent [0, 0] [1, 1] [1, 1] (fun _ _ _ => 0)

/-- Table for the C6 example: action values 3, 3, 1 in every cell. -/
def c6Table : ℕ → ℕ → ℕ → ℚ := fun _ _ z =>
  if z = 0 then 3 else if z = 1 then 3 else 1

def c6Agent : QAgent := baseAgent [0, 0] [1, 1] [1, 1] c6Table

theorem c1Agent_interval0 : c1Agent.interval_size 0 = 1 := by
  norm_num [c1Agent, baseAgent, QAgent.interval_size,
    List.getD_cons_zero, List.getD_cons_succ]

theorem c1Agent_interval1 : c1Agent.interval_size 1 = 1 := by
  norm_num [c1Agent, baseAgent, QAgent.interval_size,
    List.getD_cons_zero, List.getD_cons_succ]

theorem c1Agent_idx_state : c1Agent.get_state_index [0, 0] = [0, 0] := by
  rw [get_state_index_pair c1Agent rfl, c1Agent_interval0, c1Agent_interval1]
  rw [scanIndex_of_le _ _ _ (by norm_num)
      (by norm_num [c1Agent, baseAgent, List.getD_cons_zero]),
    scanIndex_of_le _ _ _ (by norm_num)
      (by norm_num [c1Agent, baseAgent, List.getD_cons_zero,
        List.getD_cons_succ])]

theorem c1Agent_idx_next :
    c1Agent.get_state_index [3 / 2, 0] = [1, 0] := by
  rw [get_state_index_pair c1Agent rfl, c1Agent_interval0, c1Agent_interval1]
  rw [scanIndex_of_lt _ _ _ (by norm_num)
      (by norm_num [c1Agent, baseAgent, List.getD_cons_zero])]
  rw [scanIndex_of_le _ _ _ (by norm_num)
      (by norm_num [c1Agent, baseAgent, List.getD_cons_zero])]
  rw [scanIndex_of_le _ _ _ (by norm_num)
      (by norm_num [c1Agent, baseAgent, List.getD_cons_zero,
        List.getD_cons_succ])]

theorem c2Agent_idx : c2Agent.get_state_index [0, 0] = [0, 0] := by
  rw [get_state_index_pair c2Agent rfl]
  rw [scanIndex_of_le _ _ _
      (by norm_num [c2Agent, baseAgent, QAgent.interval_size,
        List.getD_cons_zero, List.getD_cons_succ])
      (by norm_num [c2Agent, baseAgent, QAgent.interval_size,
        List.getD_cons_zero, List.getD_cons_succ]),
    scanIndex_of_le _ _ _
      (by norm_num [c2Agent, baseAgent, QAgent.interval_size,
        List.getD_cons_zero, List.getD_cons_succ])
      (by norm_num [c2Agent, baseAgent, QAgent.interval_size,
        List.getD_cons_zero, List.getD_cons_succ])]

/-- C1: a non-terminal update writes, at the entry (discretized state
cell, action), the value `old * (1 - alpha) + alpha * (reward + gamma * M)`
where `M` is the maximum table value over the actions at the discretized
next state (it bounds all three action values and is attained by one of
them); in the example with old 5, reward 1, alpha 1/10, gamma 19/20 and
M = 2 the new value is 4.79. -/
theorem update_nonterminal_spec :
    (∀ (a : QAgent) (st : List ℚ) (action : ℕ) (reward : ℚ) (ns : List ℚ),
      (a.update st action reward ns false).q_table
          ((a.get_state_index st).getD 0 0)
          ((a.get_state_index st).getD 1 0) action =
        a.q_table ((a.get_state_index st).getD 0 0)
            ((a.get_state_index st).getD 1 0) action * (1 - a.alpha) +
          a.alpha * (reward + a.gamma *
            maxOverActions a.q_table ((a.get_state_index ns).getD 0 0)
              ((a.get_state_index ns).getD 1 0))) ∧
    (∀ (q : ℕ → ℕ → ℕ → ℚ) (i j : ℕ),
      (∀ u : ℕ, u < 3 → q i j u ≤ maxOverActions q i j) ∧
      (∃ u : ℕ, u < 3 ∧ q i j u = maxOverActions q i j)) ∧
    (c1Agent.update [0, 0] 0 1 [3 / 2, 0] false).q_table 0 0 0 = 479 / 100 := by
  refine ⟨?_, ?_, ?_⟩
  · intro a st action reward ns
    simp [QAgent.update, maxOverActions]
  · intro q i j
    constructor
    · intro u hu
      interval_cases u
      · exact le_max_of_le_left (le_max_left _ _)
      · exact le_max_of_le_left (le_max_right _ _)
      · exact le_max_right _ _
    · rcases le_total (max (q i j 0) (q i j 1)) (q i j 2) with h | h
      · exact ⟨2, by norm_num,
          by simp only [maxOverActions]; rw [max_eq_right h]⟩
      · rcases le_total (q i j 0) (q i j 1) with h2 | h2
        · exact ⟨1, by norm_num,
            by simp only [maxOverActions]
               rw [max_eq_left h, max_eq_right h2]⟩
        · exact ⟨0, by norm_num,
            by simp only [maxOverActions]
               rw [max_eq_left h, max_eq_left h2]⟩
  · unfold QAgent.update
    simp only [c1Agent_idx_state, c1Agent_idx_next]
    norm_num [c1Agent, baseAgent, c1Table, max_def,
      List.getD_cons_zero, List.getD_cons_succ]

/-- C1 witness: the bound and attainment clauses of the maximum, applied
at the concrete C1 table and cell. -/
theorem update_nonterminal_spec_witness :
    ((1 : ℕ) < 3 ∧ c1Table 1 0 1 ≤ maxOverActions c1Table 1 0) ∧
    (∃ u : ℕ, u < 3 ∧ c1Table 1 0 u = maxOverActions c1Table 1 0) :=
  ⟨⟨by norm_num, (update_nonterminal_spec.2.1 c1Table 1 0).1 1 (by norm_num)⟩,
    (update_nonterminal_spec.2.1 c1Table 1 0).2⟩

/-- C2: a terminal update writes, at the entry (discretized state cell,
action), the value `old * (1 - alpha) + alpha * reward`; the written value
does not depend on any other table entry (any table agreeing at that one
entry yields the same written value); in the example with old 5, reward
10, alpha 1/10 the new value is 5.5. -/
theorem update_terminal_spec :
    (∀ (a : QAgent) (st : List ℚ) (action : ℕ) (reward : ℚ) (ns : List ℚ),
      (a.update st action reward ns true).q_table
          ((a.get_state_index st).getD 0 0)
          ((a.get_state_index st).getD 1 0) action =
        a.q_table ((a.get_state_index st).getD 0 0)
            ((a.get_state_index st).getD 1 0) action * (1 - a.alpha) +
          a.alpha * reward) ∧
    (∀ (a : QAgent) (st : List ℚ) (action : ℕ) (reward : ℚ) (ns : List ℚ)
        (q2 : ℕ → ℕ → ℕ → ℚ),
      q2 ((a.get_state_index st).getD 0 0)
          ((a.get_state_index st).getD 1 0) action =
        a.q_table ((a.get_state_index st).getD 0 0)
            ((a.get_state_index st).getD 1 0) action →
      ({ a with q_table := q2 }.update st action reward ns true).q_table
          ((a.get_state_index st).getD 0 0)
          ((a.get_state_index st).getD 1 0) action =
        (a.update st action reward ns true).q_table
          ((a.get_state_index st).getD 0 0)
          ((a.get_state_index st).getD 1 0) action) ∧
    (c2Agent.update [0, 0] 0 10 [0, 0] true).q_table 0 0 0 = 11 / 2 := by
  refine ⟨?_, ?_, ?_⟩
  · intro a st action reward ns
    simp [QAgent.update]
  · intro a st action reward ns q2 hq
    simp only [QAgent.update, get_state_index_set_table]
    simp
    exact Or.inl (by simpa using hq)
  · unfold QAgent.update
    simp only [c2Agent_idx]
    norm_num [c2Agent, baseAgent, c2Table,
      List.getD_cons_zero, List.getD_cons_succ]

/-- C2 witness: the independence clause applied with a concrete
replacement table that differs everywhere except the updated entry. -/
theorem update_terminal_spec_witness :
    ((fun _ _ _ => (5 : ℚ)) ((c2Agent.get_state_index [0, 0]).getD 0 0)
        ((c2Agent.get_state_index [0, 0]).getD 1 0) 0 =
      c2Agent.q_table ((c2Agent.get_state_index [0, 0]).getD 0 0)
        ((c2Agent.get_state_index [0, 0]).getD 1 0) 0) ∧
    ({ c2Agent with q_table := fun _ _ _ => (5 : ℚ) }.update
          [0, 0] 0 10 [0, 0] true).q_table
        ((c2Agent.get_state_index [0, 0]).getD 0 0)
        ((c2Agent.get_state_index [0, 0]).getD 1 0) 0 =
      (c2Agent.update [0, 0] 0 10 [0, 0] true).q_table
        ((c2Agent.get_state_index [0, 0]).getD 0 0)
        ((c2Agent.get_state_index [0, 0]).getD 1 0) 0 :=
  have h : (fun _ _ _ => (5 : ℚ)) ((c2Agent.get_state_index [0, 0]).getD 0 0)
      ((c2Agent.get_state_index [0, 0]).getD 1 0) 0 =
      c2Agent.q_table ((c2Agent.get_state_index [0, 0]).getD 0 0)
        ((c2Agent.get_state_index [0, 0]).getD 1 0) 0 := by
    simp only [c2Agent_idx]
    simp [c2Agent, baseAgent, c2Table]
  ⟨h, update_terminal_spec.2.1 c2Agent [0, 0] 0 10 [0, 0]
    (fun _ _ _ => (5 : ℚ)) h⟩

theorem sizes_mul_interval (a : QAgent) (i : ℕ)
    (hs : 1 ≤ a.discrete_sizes.getD i 0) :
    ((a.discrete_sizes.getD i 0 : ℕ) : ℚ) * a.interval_size i =
      a.observation_space_high.getD i 0 - a.observation_space_low.getD i 0 := by
  have hm : ((a.discrete_sizes.getD i 0 : ℕ) : ℚ) ≠ 0 := by
    have : (0 : ℚ) < ((a.discrete_sizes.getD i 0 : ℕ) : ℚ) := by
      exact_mod_cast Nat.lt_of_lt_of_le Nat.zero_lt_one hs
    linarith
  rw [QAgent.interval_size, ← mul_div_assoc]
  exact mul_div_cancel_left₀ _ hm

/-- C3: for an in-range observation, each per-dimension index returned by
the discretizer is the smallest k with observation ≤ low + (k+1)*w (the
bound holds at k and fails strictly below k, so a value exactly on an
interior boundary falls into the lower bucket), and it is a valid cell
index strictly below the bucket count; with one bucket over the range
[0, 2], both the observation 0 and the boundary observation 2 discretize
to index 0. -/
theorem get_state_index_in_range_spec :
    (∀ (a : QAgent) (obs : List ℚ) (i : ℕ),
      i < a.observation_space_size →
      a.observation_space_low.getD i 0 < a.observation_space_high.getD i 0 →
      1 ≤ a.discrete_sizes.getD i 0 →
      a.observation_space_low.getD i 0 ≤ obs.getD i 0 →
      obs.getD i 0 ≤ a.observation_space_high.getD i 0 →
      (obs.getD i 0 ≤ a.observation_space_low.getD i 0 +
          (((a.get_state_index obs).getD i 0 : ℕ) + 1 : ℚ) *
            a.interval_size i) ∧
      (∀ j : ℕ, j < (a.get_state_index obs).getD i 0 →
        a.observation_space_low.getD i 0 + ((j : ℚ) + 1) * a.interval_size i <
          obs.getD i 0) ∧
      (a.get_state_index obs).getD i 0 < a.discrete_sizes.getD i 0) ∧
    c3Agent.get_state_index [0] = [0] ∧
    c3Agent.get_state_index [2] = [0] := by
  refine ⟨?_, ?_, ?_⟩
  · intro a obs i hi hlh hs hlo hhi
    have hw := interval_size_pos a i hlh hs
    refine ⟨?_, ?_, get_state_index_lt a obs i hi hlh hs hhi⟩
    · rw [get_state_index_getD a obs i hi]
      exact scanIndex_le_bound _ _ hw _ _ rfl
    · rw [get_state_index_getD a obs i hi]
      exact scanIndex_min _ _ hw _ _ rfl
  · rw [get_state_index_single c3Agent rfl]
    rw [scanIndex_of_le _ _ _
        (by norm_num [c3Agent, baseAgent, QAgent.interval_size,
          List.getD_cons_zero])
        (by norm_num [c3Agent, baseAgent, QAgent.interval_size,
          List.getD_cons_zero])]
  · rw [get_state_index_single c3Agent rfl]
    rw [scanIndex_of_le _ _ _
        (by norm_num [c3Agent, baseAgent, QAgent.interval_size,
          List.getD_cons_zero])
        (by norm_num [c3Agent, baseAgent, QAgent.interval_size,
          List.getD_cons_zero])]

/-- C3 witness: the in-range specification applied to the one-bucket agent
at the interior observation 1. -/
theorem get_state_index_in_range_spec_witness :
    (0 < c3Agent.observation_space_size ∧
      c3Agent.observation_space_low.getD 0 0 <
        c3Agent.observation_space_high.getD 0 0 ∧
      1 ≤ c3Agent.discrete_sizes.getD 0 0 ∧
      c3Agent.observation_space_low.getD 0 0 ≤ [(1 : ℚ)].getD 0 0 ∧
      [(1 : ℚ)].getD 0 0 ≤ c3Agent.observation_space_high.getD 0 0) ∧
    (c3Agent.get_state_index [(1 : ℚ)]).getD 0 0 <
      c3Agent.discrete_sizes.getD 0 0 :=
  ⟨⟨by norm_num [c3Agent, baseAgent],
    by norm_num [c3Agent, baseAgent, List.getD_cons_zero],
    by norm_num [c3Agent, baseAgent, List.getD_cons_zero],
    by norm_num [c3Agent, baseAgent, List.getD_cons_zero],
    by norm_num [c3Agent, baseAgent, List.getD_cons_zero]⟩,
   (get_state_index_in_range_spec.1 c3Agent [(1 : ℚ)] 0
      (by norm_num [c3Agent, baseAgent])
      (by norm_num [c3Agent, baseAgent, List.getD_cons_zero])
      (by norm_num [c3Agent, baseAgent, List.getD_cons_zero])
      (by norm_num [c3Agent, baseAgent, List.getD_cons_zero])
      (by norm_num [c3Agent, baseAgent, List.getD_cons_zero])).2.2⟩

/-- C4 counterexample: the observation [-1, 1/2] has its first component
strictly below the declared low bound 0 of `c4Agent`, yet the discretizer
returns index 0 for that dimension, which is a valid in-range cell index
(the bucket count is 1), so an out-of-range input is silently clamped
rather than mapped to a negative or too-large index. -/
theorem get_state_index_out_of_range_counterexample :
    [(-1 : ℚ), 1 / 2].getD 0 0 < c4Agent.observation_space_low.getD 0 0 ∧
    (c4Agent.get_state_index [(-1 : ℚ), 1 / 2]).getD 0 0 = 0 ∧
    0 < c4Agent.discrete_sizes.getD 0 0 := by
  refine ⟨by norm_num [c4Agent, baseAgent, List.getD_cons_zero], ?_,
    by norm_num [c4Agent, baseAgent, List.getD_cons_zero]⟩
  rw [get_state_index_pair c4Agent rfl]
  simp only [List.getD_cons_zero]
  exact scanIndex_below _ _ _
    (by norm_num [c4Agent, baseAgent, QAgent.interval_size,
      List.getD_cons_zero])
    (by norm_num [c4Agent, baseAgent, List.getD_cons_zero])

/-- C4 (amended): a component strictly above its high bound yields a
per-dimension index at least the bucket count — an out-of-range table
index, i.e. the IndexOutOfRange-equivalent condition of the claim — but a
component strictly below its low bound yields index 0, a silently clamped
in-range index, so only the high side faults. -/
theorem get_state_index_out_of_range_spec (a : QAgent) (obs : List ℚ)
    (i : ℕ) (hi : i < a.observation_space_size)
    (hlh : a.observation_space_low.getD i 0 <
      a.observation_space_high.getD i 0)
    (hs : 1 ≤ a.discrete_sizes.getD i 0) :
    (a.observation_space_high.getD i 0 < obs.getD i 0 →
      a.discrete_sizes.getD i 0 ≤ (a.get_state_index obs).getD i 0) ∧
    (obs.getD i 0 < a.observation_space_low.getD i 0 →
      (a.get_state_index obs).getD i 0 = 0) := by
  have hw := interval_size_pos a i hlh hs
  constructor
  · intro hhi
    rw [get_state_index_getD a obs i hi]
    apply scanIndex_ge_of_lt _ _ _ hw
    rw [sizes_mul_interval a i hs]
    linarith
  · intro hlo
    rw [get_state_index_getD a obs i hi]
    exact scanIndex_below _ _ _ hw hlo

/-- C4 witness: an observation above the high bound of `c4Agent` receives
an index at least the bucket count. -/
theorem get_state_index_out_of_range_spec_witness :
    (0 < c4Agent.observation_space_size ∧
      c4Agent.observation_space_low.getD 0 0 <
        c4Agent.observation_space_high.getD 0 0 ∧
      1 ≤ c4Agent.discrete_sizes.getD 0 0 ∧
      c4Agent.observation_space_high.getD 0 0 < [(2 : ℚ), 1 / 2].getD 0 0) ∧
    c4Agent.discrete_sizes.getD 0 0 ≤
      (c4Agent.get_state_index [(2 : ℚ), 1 / 2]).getD 0 0 :=
  ⟨⟨by norm_num [c4Agent, baseAgent],
    by norm_num [c4Agent, baseAgent, List.getD_cons_zero],
    by norm_num [c4Agent, baseAgent, List.getD_cons_zero],
    by norm_num [c4Agent, baseAgent, List.getD_cons_zero]⟩,
   (get_state_index_out_of_range_spec c4Agent [(2 : ℚ), 1 / 2] 0
      (by norm_num [c4Agent, baseAgent])
      (by norm_num [c4Agent, baseAgent, List.getD_cons_zero])
      (by norm_num [c4Agent, baseAgent, List.getD_cons_zero])).1
    (by norm_num [c4Agent, baseAgent, List.getD_cons_zero])⟩

/-- C9: discretization is monotone per dimension: for two in-range
observations whose i-th components satisfy a < b, the index assigned to
the smaller is at most the index assigned to the larger. -/
theorem get_state_index_mono (ag : QAgent) (u v : List ℚ) (i : ℕ)
    (hi : i < ag.observation_space_size)
    (hlh : ag.observation_space_low.getD i 0 <
      ag.observation_space_high.getD i 0)
    (hs : 1 ≤ ag.discrete_sizes.getD i 0)
    (hu1 : ag.observation_space_low.getD i 0 ≤ u.getD i 0)
    (hu2 : u.getD i 0 ≤ ag.observation_space_high.getD i 0)
    (hv1 : ag.observation_space_low.getD i 0 ≤ v.getD i 0)
    (hv2 : v.getD i 0 ≤ ag.observation_space_high.getD i 0)
    (hab : u.getD i 0 < v.getD i 0) :
    (ag.get_state_index u).getD i 0 ≤ (ag.get_state_index v).getD i 0 := by
  rw [get_state_index_getD ag u i hi, get_state_index_getD ag v i hi]
  exact scanIndex_mono _ _ (interval_size_pos ag i hlh hs) hab.le

/-- C9 witness: monotonicity applied to the one-bucket agent at the
observations 1/2 and 1. -/
theorem get_state_index_mono_witness :
    (0 < c3Agent.observation_space_size ∧
      [(1 / 2 : ℚ)].getD 0 0 < [(1 : ℚ)].getD 0 0) ∧
    (c3Agent.get_state_index [(1 / 2 : ℚ)]).getD 0 0 ≤
      (c3Agent.get_state_index [(1 : ℚ)]).getD 0 0 :=
  ⟨⟨by norm_num [c3Agent, baseAgent],
    by norm_num [List.getD_cons_zero]⟩,
   get_state_index_mono c3Agent [(1 / 2 : ℚ)] [(1 : ℚ)] 0
    (by norm_num [c3Agent, baseAgent])
    (by norm_num [c3Agent, baseAgent, List.getD_cons_zero])
    (by norm_num [c3Agent, baseAgent, List.getD_cons_zero])
    (by norm_num [c3Agent, baseAgent, List.getD_cons_zero])
    (by norm_num [c3Agent, baseAgent, List.getD_cons_zero])
    (by norm_num [c3Agent, baseAgent, List.getD_cons_zero])
    (by norm_num [c3Agent, baseAgent, List.getD_cons_zero])
    (by norm_num [List.getD_cons_zero])⟩

/-- C10: with positive interval width the boundary-scanning loop
terminates — enough fuel makes the literal loop transcription return the
scan result; the Python accumulator starts at 0 and is only incremented,
so every value the loop can return is non-negative; and an observation
below the lower bound exits at once with index 0. -/
theorem scan_loop_terminates (v w l : ℚ) (hw : 0 < w) :
    (∃ fuel : ℕ, scanIndexAux v w fuel 0 l =
      some ((scanIndex v w l : ℕ) : ℤ)) ∧
    (∀ (fuel : ℕ) (x : ℤ) (l2 : ℚ) (r : ℤ),
      0 ≤ x → scanIndexAux v w fuel x l2 = some r → 0 ≤ r) ∧
    (v < l → scanIndex v w l = 0) := by
  refine ⟨⟨scanIndex v w l + 1, ?_⟩, ?_,
    fun h => scanIndex_below v w l hw h⟩
  · have h := scanIndexAux_eq v w hw (scanIndex v w l) l 0 rfl
    simpa using h
  · intro fuel
    induction fuel with
    | zero =>
      intro x l2 r hx h
      simp [scanIndexAux] at h
    | succ n ih =>
      intro x l2 r hx h
      simp only [scanIndexAux] at h
      by_cases hc : l2 + w < v
      · rw [if_pos hc] at h
        exact ih (x + 1) (l2 + w) r (by omega) h
      · rw [if_neg hc] at h
        obtain rfl : x = r := Option.some.inj h
        exact hx

/-- C10 witness: an observation below the lower boundary scans to 0. -/
theorem scan_loop_terminates_witness :
    (0 : ℚ) < 1 ∧ (0 : ℚ) < 1 ∧ scanIndex 0 1 1 = 0 :=
  ⟨by norm_num, by norm_num,
    (scan_loop_terminates 0 1 1 (by norm_num)).2.2 (by norm_num)⟩

/-- C5: epsilon starts at 1, and after each completed episode becomes
max(0, epsilon - decay step) with the decay step fixed at construction as
initial epsilon / 15000; the sequence is monotonically non-increasing,
equals exactly 0 after 15000 episodes, and stays 0 afterwards. -/
theorem epsilon_decay_spec :
    epsilon_after init_epsilon init_epsilon_decay 0 = 1 ∧
    (∀ n : ℕ, epsilon_after init_epsilon init_epsilon_decay (n + 1) ≤
      epsilon_after init_epsilon init_epsilon_decay n) ∧
    epsilon_after init_epsilon init_epsilon_decay
      init_num_episodes_decay = 0 ∧
    (∀ m : ℕ, init_num_episodes_decay ≤ m →
      epsilon_after init_epsilon init_epsilon_decay m = 0) := by
  have hd : (0 : ℚ) ≤ init_epsilon_decay := by
    norm_num [init_epsilon_decay, init_epsilon, init_num_episodes_decay]
  have he : (0 : ℚ) ≤ init_epsilon := by norm_num [init_epsilon]
  have hc := epsilon_after_closed init_epsilon init_epsilon_decay hd he
  refine ⟨rfl, ?_, ?_, ?_⟩
  · intro n
    rw [hc, hc]
    apply max_le_max le_rfl
    have h1 : ((n : ℕ) : ℚ) * init_epsilon_decay ≤
        ((n + 1 : ℕ) : ℚ) * init_epsilon_decay := by
      apply mul_le_mul_of_nonneg_right _ hd
      push_cast
      linarith
    linarith
  · rw [hc]
    norm_num [init_epsilon, init_epsilon_decay, init_num_episodes_decay]
  · intro m hm
    rw [hc]
    apply max_eq_left
    have hm1 : (15000 : ℕ) ≤ m := hm
    have hm2 : (15000 : ℚ) ≤ (m : ℚ) := by exact_mod_cast hm1
    have hdv : init_epsilon_decay = 1 / 15000 := by
      norm_num [init_epsilon_decay, init_epsilon, init_num_episodes_decay]
    have h3 : (15000 : ℚ) * (1 / 15000) ≤ (m : ℚ) * (1 / 15000) :=
      mul_le_mul_of_nonneg_right hm2 (by norm_num)
    rw [hdv, show init_epsilon = 1 from rfl]
    norm_num at h3
    linarith

/-- C5 witness: epsilon is still exactly 0 one episode past the decay
horizon. -/
theorem epsilon_decay_spec_witness :
    init_num_episodes_decay ≤ 15001 ∧
    epsilon_after init_epsilon init_epsilon_decay 15001 = 0 :=
  ⟨by norm_num [init_num_episodes_decay],
    epsilon_decay_spec.2.2.2 15001 (by norm_num [init_num_episodes_decay])⟩

/-- C6: greedy_action returns one of the actions 0, 1, 2, its table value
at the discretized cell bounds those of all three actions, and every
strictly smaller action index has a strictly smaller value — so the
lowest index achieving the maximum is returned; with action values
3, 3, 1 the returned action is 0. -/
theorem greedy_action_spec :
    (∀ (a : QAgent) (st : List ℚ),
      a.greedy_action st < 3 ∧
      (∀ u : ℕ, u < 3 →
        a.q_table ((a.get_state_index st).getD 0 0)
            ((a.get_state_index st).getD 1 0) u ≤
          a.q_table ((a.get_state_index st).getD 0 0)
            ((a.get_state_index st).getD 1 0) (a.greedy_action st)) ∧
      (∀ u : ℕ, u < a.greedy_action st →
        a.q_table ((a.get_state_index st).getD 0 0)
            ((a.get_state_index st).getD 1 0) u <
          a.q_table ((a.get_state_index st).getD 0 0)
            ((a.get_state_index st).getD 1 0) (a.greedy_action st))) ∧
    c6Agent.greedy_action [0, 0] = 0 := by
  constructor
  · intro a st
    simp only [QAgent.greedy_action]
    by_cases h1 : a.q_table ((a.get_state_index st).getD 0 0)
        ((a.get_state_index st).getD 1 0) 1 >
      a.q_table ((a.get_state_index st).getD 0 0)
        ((a.get_state_index st).getD 1 0) 0
    · rw [if_pos h1, if_pos h1]
      by_cases h2 : a.q_table ((a.get_state_index st).getD 0 0)
          ((a.get_state_index st).getD 1 0) 2 >
        a.q_table ((a.get_state_index st).getD 0 0)
          ((a.get_state_index st).getD 1 0) 1
      · rw [if_pos h2]
        refine ⟨by norm_num, ?_, ?_⟩
        · intro u hu
          interval_cases u <;> linarith
        · intro u hu
          interval_cases u <;> linarith
      · rw [if_neg h2]
        push_neg at h2
        refine ⟨by norm_num, ?_, ?_⟩
        · intro u hu
          interval_cases u <;> linarith
        · intro u hu
          interval_cases u <;> linarith
    · rw [if_neg h1, if_neg h1]
      push_neg at h1
      by_cases h2 : a.q_table ((a.get_state_index st).getD 0 0)
          ((a.get_state_index st).getD 1 0) 2 >
        a.q_table ((a.get_state_index st).getD 0 0)
          ((a.get_state_index st).getD 1 0) 0
      · rw [if_pos h2]
        refine ⟨by norm_num, ?_, ?_⟩
        · intro u hu
          interval_cases u <;> linarith
        · intro u hu
          interval_cases u <;> linarith
      · rw [if_neg h2]
        push_neg at h2
        refine ⟨by norm_num, ?_, ?_⟩
        · intro u hu
          interval_cases u <;> linarith
        · intro u hu
          omega
  · norm_num [QAgent.greedy_action, c6Agent, baseAgent, c6Table]

/-- C6 witness: at the 3, 3, 1 cell, action 1 is bounded by the value of
the returned greedy action. -/
theorem greedy_action_spec_witness :
    (1 : ℕ) < 3 ∧
    c6Agent.q_table ((c6Agent.get_state_index [0, 0]).getD 0 0)
        ((c6Agent.get_state_index [0, 0]).getD 1 0) 1 ≤
      c6Agent.q_table ((c6Agent.get_state_index [0, 0]).getD 0 0)
        ((c6Agent.get_state_index [0, 0]).getD 1 0)
        (c6Agent.greedy_action [0, 0]) :=
  ⟨by norm_num, (greedy_action_spec.1 c6Agent [0, 0]).2.1 1 (by norm_num)⟩

/-- C7: env_step invokes update with is_terminal computed as
terminated AND NOT truncated, stores the next observation as the current
state, and reports terminated OR truncated as the reset flag; in
particular a step with terminated = false and truncated = true calls
update with is_terminal = false, so truncation never reaches the
bootstrap-free terminal branch. -/
theorem env_step_spec :
    (∀ (a : QAgent) (action : ℕ) (ns : List ℚ) (reward : ℚ)
        (terminated truncated : Bool),
      a.env_step action ns reward terminated truncated =
        ({ a.update a.state action reward ns (terminated && !truncated) with
            state := ns }, terminated || truncated)) ∧
    (∀ (a : QAgent) (action : ℕ) (ns : List ℚ) (reward : ℚ),
      (a.env_step action ns reward false true).1 =
        { a.update a.state action reward ns false with state := ns }) :=
  ⟨fun _ _ _ _ _ _ => rfl, fun _ _ _ _ => rfl⟩

/-- C8: update changes the table at exactly the entry (discretized state
cell, action) — every other entry keeps its value — leaves every other
field of the agent (epsilon, bounds, bucket counts, hyperparameters,
stored state) unchanged, and for in-range inputs on the two-dimensional
shape both accessed cells lie strictly inside the declared table shape,
so the underlying array indexing raises no error. -/
theorem update_frame_spec :
    (∀ (a : QAgent) (st : List ℚ) (action : ℕ) (reward : ℚ) (ns : List ℚ)
        (t : Bool) (x y z : ℕ),
      ¬(x = (a.get_state_index st).getD 0 0 ∧
          y = (a.get_state_index st).getD 1 0 ∧ z = action) →
      (a.update st action reward ns t).q_table x y z = a.q_table x y z) ∧
    (∀ (a : QAgent) (st : List ℚ) (action : ℕ) (reward : ℚ) (ns : List ℚ)
        (t : Bool),
      (a.update st action reward ns t).epsilon = a.epsilon ∧
      (a.update st action reward ns t).observation_space_low =
        a.observation_space_low ∧
      (a.update st action reward ns t).observation_space_high =
        a.observation_space_high ∧
      (a.update st action reward ns t).observation_space_size =
        a.observation_space_size ∧
      (a.update st action reward ns t).discrete_sizes = a.discrete_sizes ∧
      (a.update st action reward ns t).actions = a.actions ∧
      (a.update st action reward ns t).alpha = a.alpha ∧
      (a.update st action reward ns t).gamma = a.gamma ∧
      (a.update st action reward ns t).num_train_episodes =
        a.num_train_episodes ∧
      (a.update st action reward ns t).num_episodes_decay =
        a.num_episodes_decay ∧
      (a.update st action reward ns t).epsilon_decay = a.epsilon_decay ∧
      (a.update st action reward ns t).state = a.state) ∧
    (∀ (a : QAgent) (st ns : List ℚ),
      a.observation_space_size = 2 →
      (∀ i : ℕ, i < 2 →
        a.observation_space_low.getD i 0 <
          a.observation_space_high.getD i 0 ∧
        1 ≤ a.discrete_sizes.getD i 0 ∧
        a.observation_space_low.getD i 0 ≤ st.getD i 0 ∧
        st.getD i 0 ≤ a.observation_space_high.getD i 0 ∧
        a.observation_space_low.getD i 0 ≤ ns.getD i 0 ∧
        ns.getD i 0 ≤ a.observation_space_high.getD i 0) →
      ∀ i : ℕ, i < 2 →
        (a.get_state_index st).getD i 0 < a.discrete_sizes.getD i 0 ∧
        (a.get_state_index ns).getD i 0 < a.discrete_sizes.getD i 0) := by
  refine ⟨?_, ?_, ?_⟩
  · intro a st action reward ns t x y z hne
    have hne2 : ¬(x = (a.get_state_index st)[0]?.getD 0 ∧
        y = (a.get_state_index st)[1]?.getD 0 ∧ z = action) := by
      simpa using hne
    cases t <;> simp [QAgent.update, hne, hne2]
  · intro a st action reward ns t
    cases t <;> simp [QAgent.update]
  · intro a st ns h2 hcfg i hi
    obtain ⟨hlh, hs, hst1, hst2, hns1, hns2⟩ := hcfg i hi
    have hi2 : i < a.observation_space_size := by rw [h2]; exact hi
    exact ⟨get_state_index_lt a st i hi2 hlh hs hst2,
      get_state_index_lt a ns i hi2 hlh hs hns2⟩

/-- C8 witness: the in-shape clause applied to the concrete two by two
agent at the in-range observation (1/2, 1/2). -/
theorem update_frame_spec_witness :
    c4Agent.observation_space_size = 2 ∧
    ((c4Agent.get_state_index [(1 / 2 : ℚ), 1 / 2]).getD 0 0 <
        c4Agent.discrete_sizes.getD 0 0 ∧
      (c4Agent.get_state_index [(1 / 2 : ℚ), 1 / 2]).getD 0 0 <
        c4Agent.discrete_sizes.getD 0 0) :=
  ⟨rfl, update_frame_spec.2.2 c4Agent [(1 / 2 : ℚ), 1 / 2]
    [(1 / 2 : ℚ), 1 / 2] rfl
    (by
      intro i hi
      interval_cases i <;>
        norm_num [c4Agent, baseAgent, List.getD_cons_zero,
          List.getD_cons_succ])
    0 (by norm_num)⟩

end MountainCar
